import Mathlib

/-!
Verification of the zcf configuration installer against its specification.

The development shallowly embeds the relevant source modules:
  * the CCR (claude-code-router) process-probe/installer module
    (`isCcrInstalled`, `getCcrVersion`, `installCcr`, `startCcrService`),
  * the AI-personality configuration module (`hasExistingPersonality`,
    `getExistingPersonality`, the prompt default index, the free-text
    validator, and the post-selection persistence phase),
  * the CLI default-command dispatcher (`handleDefaultCommand`),
  * the configuration merge engine (modelled from the spec, since its
    source file is not part of the provided sources).

Subprocess execution is modelled by an environment `ExecEnv` mapping a
command line to either an output (stdout) or an error; each embedded
function additionally returns the trace of observable events it performs
(awaited spawns, background spawns, sleeps, console output), so that
claims about the number and blocking nature of invocations are statable.
-/

set_option maxHeartbeats 1000000

namespace Zcf

/-- Error thrown by a failed subprocess invocation (only the message is
observable in the source: `error.message?.includes('EEXIST')`). -/
structure ExecError where
  message : String
deriving DecidableEq

/-- Output of a successful subprocess invocation; only `stdout` is read. -/
structure ExecOutput where
  stdout : String
deriving DecidableEq

/-- The subprocess environment: what `execAsync cmd` would yield. -/
abbrev ExecEnv := String → Except ExecError ExecOutput

/-- Observable events of an embedded function: an awaited subprocess
invocation (the caller resumes only after the subprocess exited or
errored), a background invocation (`exec(cmd, callback)` without `await`:
the caller proceeds while the subprocess runs), a timer sleep, and console
output. -/
inductive Event where
  | execAwait (cmd : String)
  | execBackground (cmd : String)
  | sleep (ms : Nat)
  | print (msg : String)
  | printError (msg : String)
deriving DecidableEq

/-- Is the event a subprocess spawn (awaited or background)? -/
def Event.isSpawn : Event → Bool
  | .execAwait _ => true
  | .execBackground _ => true
  | _ => false

/-- Is the event a background (non-awaited) subprocess spawn? -/
def Event.isBackgroundSpawn : Event → Bool
  | .execBackground _ => true
  | _ => false

/-- `listStartsWith pat s` : does `s` start with `pat`? -/
def listStartsWith : List Char → List Char → Bool
  | [], _ => true
  | _ :: _, [] => false
  | p :: ps, c :: cs => (p = c) && listStartsWith ps cs

/-- `listIncludes pat s` : does `pat` occur contiguously in `s`?  Embeds
JavaScript `String.prototype.includes`. -/
def listIncludes (pat : List Char) : List Char → Bool
  | [] => listStartsWith pat []
  | c :: t => listStartsWith pat (c :: t) || listIncludes pat t

/-- JavaScript `s.includes(sub)`. -/
def strIncludes (s sub : String) : Bool :=
  listIncludes sub.data s.data

/-! ## The CCR probe/installer module (source file `part_000`) -/

/-- Embeds `isCcrInstalled`: try `ccr version`; on failure fall back to
`which ccr`; all failures are caught, so the result is always `.ok`.
Returns the result together with the trace of events performed. -/
def isCcrInstalled (env : ExecEnv) : Except ExecError Bool × List Event :=
  match env "ccr version" with
  | .ok _ => (.ok true, [.execAwait "ccr version"])
  | .error _ =>
    match env "which ccr" with
    | .ok _ => (.ok true, [.execAwait "ccr version", .execAwait "which ccr"])
    | .error _ => (.ok false, [.execAwait "ccr version", .execAwait "which ccr"])

/-- Leftmost-match search for the pattern `\d+\.\d+\.\d+` at the head of
`s` (greedy digit runs, as the JavaScript regex engine produces: since a
digit run and a literal dot are disjoint, greedy maximal munch coincides
with the backtracking semantics). Returns the matched characters. -/
def matchVersionAt (s : List Char) : Option (List Char) :=
  if s.takeWhile Char.isDigit = [] then none
  else
    match s.dropWhile Char.isDigit with
    | '.' :: r2 =>
      if r2.takeWhile Char.isDigit = [] then none
      else
        match r2.dropWhile Char.isDigit with
        | '.' :: r4 =>
          if r4.takeWhile Char.isDigit = [] then none
          else
            some (s.takeWhile Char.isDigit ++
              '.' :: (r2.takeWhile Char.isDigit ++
                '.' :: r4.takeWhile Char.isDigit))
        | _ => none
    | _ => none

/-- Embeds `stdout.match(/(\d+\.\d+\.\d+)/)`: scan left to right for the
first position where the version pattern matches. -/
def findVersion : List Char → Option (List Char)
  | [] => none
  | c :: t =>
    match matchVersionAt (c :: t) with
    | some v => some v
    | none => findVersion t

/-- String-level wrapper of `findVersion`. -/
def findVersionString (s : String) : Option String :=
  (findVersion s.data).map String.mk

/-- The dotted-numeric version pattern of the spec: `digits.digits.digits`
with each digit run non-empty. -/
def IsVersionCore (v : List Char) : Prop :=
  ∃ d1 d2 d3 : List Char,
    d1 ≠ [] ∧ d2 ≠ [] ∧ d3 ≠ [] ∧
    (∀ c ∈ d1, Char.isDigit c) ∧ (∀ c ∈ d2, Char.isDigit c) ∧
    (∀ c ∈ d3, Char.isDigit c) ∧
    v = d1 ++ '.' :: (d2 ++ '.' :: d3)

/-- `v` occurs as a contiguous substring of `s` starting at index `i`. -/
def OccursAt (v s : List Char) (i : Nat) : Prop :=
  ∃ pre post, pre.length = i ∧ s = pre ++ (v ++ post)

/-- Embeds `getCcrVersion`: run `ccr version`, extract the first
`\d+\.\d+\.\d+` match from stdout; any failure yields `null` (here
`none`); all failures are caught, so the result is always `.ok`. -/
def getCcrVersion (env : ExecEnv) :
    Except ExecError (Option String) × List Event :=
  match env "ccr version" with
  | .ok out => (.ok (findVersionString out.stdout), [.execAwait "ccr version"])
  | .error _ => (.ok none, [.execAwait "ccr version"])

/-- The package-manager command `installCcr` runs. -/
def npmInstallCmd : String := "npm install -g claude-code-router --force"

/-- Embeds `installCcr` (the i18n message texts are abbreviated by their
translation keys, since the string table lives outside the provided
sources; only the control flow matters here): if already installed,
return; otherwise run the npm install, treating an error whose message
contains "EEXIST" as success and re-throwing any other error. -/
def installCcr (env : ExecEnv) : Except ExecError Unit × List Event :=
  match isCcrInstalled env with
  | (.ok true, tr) => (.ok (), tr ++ [.print "ccrAlreadyInstalled"])
  | (.ok false, tr) =>
    let tr2 := tr ++ [.print "installingCcr", .execAwait npmInstallCmd]
    match env npmInstallCmd with
    | .ok _ => (.ok (), tr2 ++ [.print "ccrInstallSuccess"])
    | .error e =>
      if strIncludes e.message "EEXIST" then
        (.ok (), tr2 ++ [.print "ccrAlreadyInstalled"])
      else
        (.error e, tr2 ++ [.printError "ccrInstallFailed"])
  | (.error e, tr) => (.error e, tr)

/-- Embeds `startCcrService`: spawns `ccr` with `exec('ccr', callback)`
WITHOUT awaiting it (the callback merely logs a failure later), then
awaits a fixed 2000 ms timer and returns; the result does not depend on
the subprocess outcome. -/
def startCcrService : Except ExecError Unit × List Event :=
  (.ok (), [.execBackground "ccr", .sleep 2000])

/-! ## The AI-personality module (source file `src/utils/ai-personality.ts`) -/

/-- Modelled from the spec: the `ZcfConfig` record (its reader/writer
module `utils/zcf-config` is not among the provided sources) — a small
record with a preferred display language and a selected AI personality
identifier; a missing field means "unconfigured". -/
structure ZcfConfig where
  preferredLang : Option String := none
  aiPersonality : Option String := none
deriving DecidableEq

/-- JavaScript string truthiness: a string is truthy iff it is non-empty. -/
def strTruthy (s : String) : Bool := s ≠ ""

/-- JavaScript optional-chain read `config?.aiPersonality` (the stored
configuration, possibly absent, is passed explicitly). -/
def readAiPersonality (cfg : Option ZcfConfig) : Option String :=
  match cfg with
  | none => none
  | some c => c.aiPersonality

/-- Embeds `hasExistingPersonality`: `!!config?.aiPersonality`. -/
def hasExistingPersonality (cfg : Option ZcfConfig) : Bool :=
  match readAiPersonality cfg with
  | none => false
  | some s => strTruthy s

/-- Embeds `getExistingPersonality`: `config?.aiPersonality || null`
(an empty string is falsy, hence becomes `null`). -/
def getExistingPersonality (cfg : Option ZcfConfig) : Option String :=
  match readAiPersonality cfg with
  | none => none
  | some s => if strTruthy s then some s else none

/-- The identifiers of `AI_PERSONALITIES`, in source order; the first
entry is the default ("Professional Assistant(Default)"). -/
def aiPersonalityIds : List String :=
  ["professional", "catgirl", "friendly", "mentor", "custom"]

/-- Embeds the `default:` expression of the personality list prompt:
`existingPersonality ? AI_PERSONALITIES.findIndex(p => p.id === existingPersonality) : 0`
(JavaScript `findIndex` yields `-1` when no element matches). -/
def personalityDefaultIndex (cfg : Option ZcfConfig) : Int :=
  match getExistingPersonality cfg with
  | none => 0
  | some p =>
    match aiPersonalityIds.findIdx? (fun id => id = p) with
    | some i => (i : Int)
    | none => -1

/-- Outcome of an inquirer `validate` callback: `true` accepts the answer,
returning a message string rejects it. -/
inductive ValidateResult where
  | accept
  | reject (msg : String)
deriving DecidableEq

/-- Embeds the custom-directive validator
`(value) => !!value || i18n.configuration.directiveCannotBeEmpty`
(message abbreviated by its translation key). -/
def customDirectiveValidate (value : String) : ValidateResult :=
  if strTruthy value then .accept else .reject "directiveCannotBeEmpty"

/-- Modelled from the spec: `updateZcfConfig` (module `utils/zcf-config`
is not among the provided sources) — merge the partial update into the
existing record, creating one when absent; last write wins. -/
def updateZcfConfig (cfg : Option ZcfConfig) (personality : String) : ZcfConfig :=
  match cfg with
  | none => { aiPersonality := some personality }
  | some c => { c with aiPersonality := some personality }

/-- A filesystem-write environment: `writeEnv path content` is the
outcome `writeFile(path, content)` would have (module
`utils/fs-operations` is not among the provided sources; the spec calls
its failures `IOError`). -/
abbrev WriteEnv := String → String → Except ExecError Unit

/-- The personality file path `join(CLAUDE_DIR, 'personality.md')`
(`CLAUDE_DIR` lives in the out-of-source `constants` module; its exact
value is irrelevant to the claims). -/
def personalityFilePath : String := "CLAUDE_DIR/personality.md"

/-- Embeds `applyPersonalityDirective`: try to write the directive to
`personality.md`; on failure, catch the error and only log it. Returns
the list of successful writes (path, content) and the events performed;
the function itself never throws. -/
def applyPersonalityDirective (writeEnv : WriteEnv) (directive : String) :
    List (String × String) × List Event :=
  match writeEnv personalityFilePath directive with
  | .ok _ => ([(personalityFilePath, directive)], [])
  | .error _ => ([], [.printError "failedToApplyPersonality"])

/-- Embeds the tail of `configureAiPersonality` (after a personality and
directive have been chosen): apply the directive to `personality.md`,
then unconditionally save the personality identifier to the ZcfConfig
record and report success. Returns the updated record, the successful
file writes, and the events performed. -/
def configureAiPersonalityFinish (writeEnv : WriteEnv) (cfg : Option ZcfConfig)
    (personality directive : String) :
    ZcfConfig × List (String × String) × List Event :=
  let applied := applyPersonalityDirective writeEnv directive
  let cfg2 := updateZcfConfig cfg personality
  (cfg2, applied.1, applied.2 ++ [.print "personalityConfigured"])

/-! ## The CLI dispatcher (source file `src/cli-setup.ts`) -/

/-- The CLI options relevant to the default command (`--init`,
`--config-lang`, `--force`; `lang` can also arrive via options). -/
structure CliOptions where
  doInit : Bool := false
  lang : Option String := none
  configLang : Option String := none
  force : Bool := false
deriving DecidableEq

/-- The action the default command dispatches to. -/
inductive CliAction where
  | runInit (lang configLang : Option String) (force : Bool)
  | showMenu
deriving DecidableEq

/-- JavaScript `a || b` on possibly-undefined strings (an empty string is
falsy). -/
def jsOrString (a b : Option String) : Option String :=
  match a with
  | none => b
  | some s => if strTruthy s then some s else b

/-- Embeds `handleDefaultCommand`: with `--init`, run full initialization
(passing `lang || options.lang`, the config language and force flag);
otherwise show the interactive menu. -/
def handleDefaultCommand (lang : Option String) (options : CliOptions) : CliAction :=
  if options.doInit then
    .runInit (jsOrString lang options.lang) options.configLang options.force
  else
    .showMenu

/-! ## The configuration merge engine (spec §4.1) -/

/-- A JSON value. -/
inductive Json where
  | null : Json
  | bool : Bool → Json
  | num : Int → Json
  | str : String → Json
  | arr : List Json → Json
  | obj : List (String × Json) → Json

/-- Look a key up in a JSON object's field list (first occurrence wins). -/
def lookupKey (fields : List (String × Json)) (k : String) : Option Json :=
  match fields with
  | [] => none
  | (k2, v) :: rest => if k2 = k then some v else lookupKey rest k

mutual

/-- Modelled from the spec: the merge engine's per-value rule for a key
present in both target and template (the merge engine's source file is
not among the provided sources) — "object keys present in both are merged
recursively; array-valued keys are replaced wholesale by the template's
value"; any other conflicting value is adopted from the template. -/
def mergeValue (preserve : List String) : Json → Json → Json
  | Json.obj t, Json.obj tpl =>
    Json.obj (mergeInto preserve t tpl ++
      tpl.filter (fun kv => (lookupKey t kv.1).isNone))
  | _, tpl => tpl

/-- Modelled from the spec: reconcile the target object's fields with the
template — a key also present in the template keeps the user's value when
tagged "preserve-user-value" and otherwise takes `mergeValue` of the two;
a key absent from the template is kept unchanged. -/
def mergeInto (preserve : List String) :
    List (String × Json) → List (String × Json) → List (String × Json)
  | [], _ => []
  | (k, v) :: rest, tpl =>
    (match lookupKey tpl k with
     | none => (k, v)
     | some tv => if k ∈ preserve then (k, v) else (k, mergeValue preserve v tv))
    :: mergeInto preserve rest tpl

end

/-- Modelled from the spec: the `merge` strategy on one JSON settings
object — reconcile shared keys via `mergeInto` and append the template's
new keys. -/
def mergeObjects (preserve : List String)
    (target tpl : List (String × Json)) : List (String × Json) :=
  mergeInto preserve target tpl ++ tpl.filter (fun kv => (lookupKey target kv.1).isNone)

/-! ## Helper lemmas: digit runs and the version matcher -/

theorem takeWhile_all_append (p : Char → Bool) (l : List Char) (x : Char)
    (r : List Char) (hl : ∀ c ∈ l, p c) (hx : p x = false) :
    (l ++ x :: r).takeWhile p = l ∧ (l ++ x :: r).dropWhile p = x :: r := by
  induction l with
  | nil => simp [List.takeWhile_cons, List.dropWhile_cons, hx]
  | cons a t ih =>
    have ha : p a := hl a (by simp)
    have iht := ih fun c hc => hl c (by simp [hc])
    simp [List.takeWhile_cons, List.dropWhile_cons, ha, iht.1, iht.2]

theorem takeWhile_append_ne_nil (p : Char → Bool) (l post : List Char)
    (hne : l ≠ []) (hall : ∀ c ∈ l, p c) : (l ++ post).takeWhile p ≠ [] := by
  cases l with
  | nil => exact absurd rfl hne
  | cons a t =>
    have ha : p a := hall a (by simp)
    simp [List.takeWhile_cons, ha]

theorem matchVersionAt_sound (s v : List Char) (h : matchVersionAt s = some v) :
    IsVersionCore v ∧ ∃ post, s = v ++ post := by
  unfold matchVersionAt at h
  split at h
  · exact absurd h (by simp)
  next hd1 =>
    split at h
    next r2 hr1 =>
      split at h
      · exact absurd h (by simp)
      next hd2 =>
        split at h
        next r4 hr3 =>
          split at h
          · exact absurd h (by simp)
          next hd3 =>
            have hv := Option.some.inj h
            constructor
            · refine ⟨s.takeWhile Char.isDigit, r2.takeWhile Char.isDigit,
                r4.takeWhile Char.isDigit, hd1, hd2, hd3, ?_, ?_, ?_, hv.symm⟩
              · exact fun c hc => List.mem_takeWhile_imp hc
              · exact fun c hc => List.mem_takeWhile_imp hc
              · exact fun c hc => List.mem_takeWhile_imp hc
            · refine ⟨r4.dropWhile Char.isDigit, ?_⟩
              have e0 : s = s.takeWhile Char.isDigit ++ s.dropWhile Char.isDigit :=
                (List.takeWhile_append_dropWhile Char.isDigit s).symm
              have e2 : r2 = r2.takeWhile Char.isDigit ++ r2.dropWhile Char.isDigit :=
                (List.takeWhile_append_dropWhile Char.isDigit r2).symm
              have e4 : r4 = r4.takeWhile Char.isDigit ++ r4.dropWhile Char.isDigit :=
                (List.takeWhile_append_dropWhile Char.isDigit r4).symm
              rw [← hv]
              calc s = s.takeWhile Char.isDigit ++ s.dropWhile Char.isDigit := e0
                _ = s.takeWhile Char.isDigit ++ '.' :: r2 := by rw [hr1]
                _ = s.takeWhile Char.isDigit ++
                      '.' :: (r2.takeWhile Char.isDigit ++ r2.dropWhile Char.isDigit) := by
                    rw [← e2]
                _ = s.takeWhile Char.isDigit ++
                      '.' :: (r2.takeWhile Char.isDigit ++ '.' :: r4) := by rw [hr3]
                _ = s.takeWhile Char.isDigit ++
                      '.' :: (r2.takeWhile Char.isDigit ++
                        '.' :: (r4.takeWhile Char.isDigit ++ r4.dropWhile Char.isDigit)) := by
                    rw [← e4]
                _ = (s.takeWhile Char.isDigit ++
                      '.' :: (r2.takeWhile Char.isDigit ++
                        '.' :: r4.takeWhile Char.isDigit)) ++ r4.dropWhile Char.isDigit := by
                    simp
        next hr3 => exact absurd h (by simp)
    next hr1 => exact absurd h (by simp)

theorem matchVersionAt_of_core (v post : List Char) (hv : IsVersionCore v) :
    matchVersionAt (v ++ post) ≠ none := by
  obtain ⟨d1, d2, d3, h1, h2, h3, a1, a2, a3, rfl⟩ := hv
  have hdot : Char.isDigit '.' = false := rfl
  have shape : (d1 ++ '.' :: (d2 ++ '.' :: d3)) ++ post =
      d1 ++ '.' :: (d2 ++ '.' :: (d3 ++ post)) := by simp
  rw [shape]
  have e1 := takeWhile_all_append Char.isDigit d1 '.' (d2 ++ '.' :: (d3 ++ post)) a1 hdot
  have shape2 : d2 ++ '.' :: (d3 ++ post) = d2 ++ '.' :: (d3 ++ post) := rfl
  have e2 := takeWhile_all_append Char.isDigit d2 '.' (d3 ++ post) a2 hdot
  have e3 := takeWhile_append_ne_nil Char.isDigit d3 post h3 a3
  unfold matchVersionAt
  rw [e1.1, e1.2]
  simp [h1, h2, e2.1, e2.2, e3]

theorem findVersion_sound (s v : List Char) (h : findVersion s = some v) :
    ∃ i, OccursAt v s i ∧ IsVersionCore v ∧
      ∀ j w, OccursAt w s j → IsVersionCore w → i ≤ j := by
  induction s with
  | nil => exact absurd h (by simp [findVersion])
  | cons c t ih =>
    rw [findVersion] at h
    cases hm : matchVersionAt (c :: t) with
    | some v0 =>
      rw [hm] at h
      have hvv : v0 = v := Option.some.inj h
      subst hvv
      obtain ⟨hcore, post, hpost⟩ := matchVersionAt_sound (c :: t) v0 hm
      exact ⟨0, ⟨[], post, rfl, by simpa using hpost⟩, hcore, fun j w _ _ => Nat.zero_le j⟩
    | none =>
      rw [hm] at h
      obtain ⟨i, ⟨pre, post, hlen, hsplit⟩, hcore, hmin⟩ := ih h
      refine ⟨i + 1, ⟨c :: pre, post, by simp [hlen], by simp [hsplit]⟩, hcore, ?_⟩
      intro j w hocc hwcore
      obtain ⟨pre2, post2, hlen2, hsplit2⟩ := hocc
      cases j with
      | zero =>
        have hpre2 : pre2 = [] := List.eq_nil_of_length_eq_zero hlen2
        subst hpre2
        simp at hsplit2
        exact absurd hm (by rw [hsplit2]; exact matchVersionAt_of_core w post2 hwcore)
      | succ j2 =>
        cases pre2 with
        | nil => simp at hlen2
        | cons c2 pre3 =>
          have hc2 : c2 = c ∧ t = pre3 ++ (w ++ post2) := by
            have := hsplit2
            simp at this
            exact ⟨this.1.symm, this.2⟩
          have : OccursAt w t j2 :=
            ⟨pre3, post2, by simpa using hlen2, hc2.2⟩
          exact Nat.succ_le_succ (hmin j2 w this hwcore)

theorem findVersion_complete (s : List Char) (h : findVersion s = none) :
    ∀ v i, OccursAt v s i → ¬IsVersionCore v := by
  induction s with
  | nil =>
    intro v i hocc hcore
    obtain ⟨pre, post, _, hsplit⟩ := hocc
    obtain ⟨d1, d2, d3, h1, _, _, _, _, _, hv⟩ := hcore
    have : v = [] := by
      cases pre with
      | nil =>
        cases hv2 : v with
        | nil => rfl
        | cons a b => rw [hv2] at hsplit; simp at hsplit
      | cons a b => simp at hsplit
    rw [this] at hv
    exact absurd hv.symm (by simp [h1])
  | cons c t ih =>
    intro v i hocc hcore
    rw [findVersion] at h
    cases hm : matchVersionAt (c :: t) with
    | some v0 => rw [hm] at h; simp at h
    | none =>
      rw [hm] at h
      obtain ⟨pre, post, hlen, hsplit⟩ := hocc
      cases pre with
      | nil =>
        simp at hsplit
        exact absurd hm (by rw [hsplit]; exact matchVersionAt_of_core v post hcore)
      | cons c2 pre2 =>
        have hct : t = pre2 ++ (v ++ post) := by
          have := hsplit
          simp at this
          exact this.2
        exact ih h v pre2.length ⟨pre2, post, rfl, hct⟩ hcore

/-! ## Helper lemmas: the merge engine -/

theorem lookupKey_append_left (a b : List (String × Json)) (k : String)
    (v : Json) (h : lookupKey a k = some v) : lookupKey (a ++ b) k = some v := by
  induction a with
  | nil => simp [lookupKey] at h
  | cons kv rest ih =>
    obtain ⟨k2, v2⟩ := kv
    rw [lookupKey] at h
    by_cases hk : k2 = k
    · simp [lookupKey, hk] at h ⊢
      exact h
    · simp [lookupKey, hk] at h ⊢
      exact ih h

theorem lookupKey_mergeInto (preserve : List String)
    (tpl : List (String × Json)) :
    ∀ (target : List (String × Json)) (k : String),
      lookupKey (mergeInto preserve target tpl) k =
        (lookupKey target k).map fun v =>
          match lookupKey tpl k with
          | none => v
          | some tv => if k ∈ preserve then v else mergeValue preserve v tv := by
  intro target
  induction target with
  | nil => intro k; simp [mergeInto, lookupKey]
  | cons kv rest ih =>
    intro k
    obtain ⟨k2, v2⟩ := kv
    by_cases hk : k2 = k
    · subst hk
      cases htpl : lookupKey tpl k2 with
      | none => simp [mergeInto, lookupKey, htpl]
      | some tv =>
        by_cases hp : k2 ∈ preserve <;>
          simp [mergeInto, lookupKey, htpl, hp]
    · cases htpl2 : lookupKey tpl k2 with
      | none => simp [mergeInto, lookupKey, htpl2, hk, ih k]
      | some tv2 =>
        by_cases hp2 : k2 ∈ preserve <;>
          simp [mergeInto, lookupKey, htpl2, hp2, hk, ih k]

theorem isCcrInstalled_trace (env : ExecEnv) :
    (isCcrInstalled env).2 = [.execAwait "ccr version"] ∨
      (isCcrInstalled env).2 = [.execAwait "ccr version", .execAwait "which ccr"] := by
  cases h1 : env "ccr version" with
  | ok o => exact Or.inl (by simp [isCcrInstalled, h1])
  | error e =>
    cases h2 : env "which ccr" with
    | ok o => exact Or.inr (by simp [isCcrInstalled, h1, h2])
    | error e2 => exact Or.inr (by simp [isCcrInstalled, h1, h2])

/-! ## Claim theorems -/

/-- Claim C1: when the companion executable is entirely absent (every
attempted subprocess invocation fails), `isCcrInstalled` returns `false`
and `getCcrVersion` returns the absent value (`none`); neither call
propagates an error (both results are `.ok`). -/
theorem probe_tolerates_absence (env : ExecEnv)
    (habs : ∀ cmd, ∃ e, env cmd = .error e) :
    (isCcrInstalled env).1 = .ok false ∧ (getCcrVersion env).1 = .ok none := by
  obtain ⟨e1, h1⟩ := habs "ccr version"
  obtain ⟨e2, h2⟩ := habs "which ccr"
  exact ⟨by simp [isCcrInstalled, h1, h2], by simp [getCcrVersion, h1]⟩

/-- Witness for C1 at a concrete absent-executable environment. -/
theorem probe_tolerates_absence_witness :
    (isCcrInstalled fun _ => .error ⟨"spawn ccr ENOENT"⟩).1 = .ok false ∧
      (getCcrVersion fun _ => .error ⟨"spawn ccr ENOENT"⟩).1 = .ok none :=
  probe_tolerates_absence (fun _ => .error ⟨"spawn ccr ENOENT"⟩)
    fun _ => ⟨⟨"spawn ccr ENOENT"⟩, rfl⟩

/-- Claim C2 counterexample: with every invocation failing, a single
`isCcrInstalled()` call attempts two subprocess invocations — `which ccr`
is attempted after `ccr version` fails — refuting "exactly one
external-executable invocation is attempted; no second invocation is
attempted after the first fails". -/
theorem isCcrInstalled_two_attempts :
    ((isCcrInstalled fun _ => .error ⟨"spawn ccr ENOENT"⟩).2.countP Event.isSpawn
        = 2) ∧
      (isCcrInstalled fun _ => .error ⟨"spawn ccr ENOENT"⟩).2 =
        [.execAwait "ccr version", .execAwait "which ccr"] :=
  ⟨rfl, rfl⟩

/-- Claim C2 (amended): `getCcrVersion` attempts exactly one subprocess
invocation per call; `isCcrInstalled` attempts exactly one when
`ccr version` succeeds, and on its failure attempts exactly one further,
distinct invocation (`which ccr`) — so no command is ever retried. -/
theorem single_attempt_amended (env : ExecEnv) :
    (getCcrVersion env).2 = [.execAwait "ccr version"] ∧
    ((∃ o, env "ccr version" = .ok o) →
      (isCcrInstalled env).2 = [.execAwait "ccr version"]) ∧
    ((∃ e, env "ccr version" = .error e) →
      (isCcrInstalled env).2 =
        [.execAwait "ccr version", .execAwait "which ccr"]) := by
  refine ⟨?_, ?_, ?_⟩
  · cases h : env "ccr version" <;> simp [getCcrVersion, h]
  · rintro ⟨o, h⟩
    simp [isCcrInstalled, h]
  · rintro ⟨e, h⟩
    cases h2 : env "which ccr" <;> simp [isCcrInstalled, h, h2]

/-- Witness for C2 (amended) at concrete environments. -/
theorem single_attempt_amended_witness :
    (isCcrInstalled fun _ => .ok ⟨"1.0.0"⟩).2 = [.execAwait "ccr version"] ∧
      (isCcrInstalled fun _ => .error ⟨"ENOENT"⟩).2 =
        [.execAwait "ccr version", .execAwait "which ccr"] :=
  ⟨(single_attempt_amended fun _ => .ok ⟨"1.0.0"⟩).2.1 ⟨⟨"1.0.0"⟩, rfl⟩,
   (single_attempt_amended fun _ => .error ⟨"ENOENT"⟩).2.2 ⟨⟨"ENOENT"⟩, rfl⟩⟩

/-- Claim C3: when `ccr version` succeeds with some stdout,
`getCcrVersion` returns the first substring of stdout matching the dotted
version pattern `\d+\.\d+\.\d+` — any returned string is such a match and
occurs at the leftmost position at which any match occurs — and returns
the absent value (`none`) exactly when no substring of stdout matches. -/
theorem getCcrVersion_first_match (env : ExecEnv) (out : ExecOutput)
    (h : env "ccr version" = .ok out) :
    (∀ v : String, (getCcrVersion env).1 = .ok (some v) →
      ∃ l i, v = String.mk l ∧ IsVersionCore l ∧ OccursAt l out.stdout.data i ∧
        ∀ j w, OccursAt w out.stdout.data j → IsVersionCore w → i ≤ j) ∧
    ((getCcrVersion env).1 = .ok none →
      ∀ w i, OccursAt w out.stdout.data i → ¬IsVersionCore w) := by
  have hres : (getCcrVersion env).1 = .ok (findVersionString out.stdout) := by
    simp [getCcrVersion, h]
  constructor
  · intro v hv
    rw [hres] at hv
    have hfind : findVersionString out.stdout = some v := by
      simpa using hv
    rw [findVersionString] at hfind
    obtain ⟨l, hl, hlv⟩ := Option.map_eq_some'.mp hfind
    obtain ⟨i, hocc, hcore, hmin⟩ := findVersion_sound out.stdout.data l hl
    exact ⟨l, i, hlv.symm, hcore, hocc, hmin⟩
  · intro hv
    rw [hres] at hv
    have hfind : findVersionString out.stdout = none := by
      simpa using hv
    rw [findVersionString] at hfind
    have hnone : findVersion out.stdout.data = none :=
      Option.map_eq_none'.mp hfind
    intro w i hocc hcore
    exact findVersion_complete out.stdout.data hnone w i hocc hcore

/-- Witness for C3 at a concrete stdout containing a version string. -/
theorem getCcrVersion_first_match_witness :
    ∃ l i, "1.0.25" = String.mk l ∧ IsVersionCore l ∧
      OccursAt l ("ccr version 1.0.25 ok" : String).data i ∧
      ∀ j w, OccursAt w ("ccr version 1.0.25 ok" : String).data j →
        IsVersionCore w → i ≤ j :=
  (getCcrVersion_first_match (fun _ => .ok ⟨"ccr version 1.0.25 ok"⟩)
    ⟨"ccr version 1.0.25 ok"⟩ rfl).1 "1.0.25" rfl

/-- Claim C5 counterexample: `startCcrService` spawns `ccr` in the
background (without awaiting its exit) and then merely sleeps a fixed
2000 ms before returning, so this process-spawning call returns while its
subprocess may still be running — refuting "every process-spawning call
returns only after the spawned subprocess has exited or errored". -/
theorem startCcrService_background_spawn :
    Event.execBackground "ccr" ∈ startCcrService.2 ∧
      (Event.execBackground "ccr").isBackgroundSpawn = true ∧
      startCcrService.2 = [.execBackground "ccr", .sleep 2000] :=
  ⟨by simp [startCcrService], rfl, rfl⟩

/-- Claim C5 (amended): every subprocess invocation performed by
`isCcrInstalled`, `getCcrVersion` and `installCcr` is awaited (the call
resumes only after the subprocess exited or errored); the sole exception
is `startCcrService`, which spawns `ccr` in the background and returns
after a fixed 2000 ms sleep without waiting for that subprocess. -/
theorem spawn_blocking_amended (env : ExecEnv) :
    (∀ e ∈ (isCcrInstalled env).2, e.isBackgroundSpawn = false) ∧
    (∀ e ∈ (getCcrVersion env).2, e.isBackgroundSpawn = false) ∧
    (∀ e ∈ (installCcr env).2, e.isBackgroundSpawn = false) ∧
    startCcrService.2 = [.execBackground "ccr", .sleep 2000] := by
  refine ⟨?_, ?_, ?_, rfl⟩
  · rcases isCcrInstalled_trace env with h | h <;>
      rw [h] <;> intro e he <;> simp at he
    · rw [he]; rfl
    · rcases he with he | he <;> rw [he] <;> rfl
  · cases h : env "ccr version" <;>
      simp [getCcrVersion, h, Event.isBackgroundSpawn]
  · cases h1 : env "ccr version" with
    | ok o =>
      simp [installCcr, isCcrInstalled, h1, Event.isBackgroundSpawn]
    | error e1 =>
      cases h2 : env "which ccr" with
      | ok o2 =>
        simp [installCcr, isCcrInstalled, h1, h2, Event.isBackgroundSpawn]
      | error e2 =>
        cases h3 : env npmInstallCmd with
        | ok o3 =>
          simp [installCcr, isCcrInstalled, h1, h2, h3, Event.isBackgroundSpawn]
        | error e3 =>
          by_cases h4 : strIncludes e3.message "EEXIST" <;>
            simp [installCcr, isCcrInstalled, h1, h2, h3, h4,
              Event.isBackgroundSpawn]

/-- Witness for C5 (amended) at a concrete environment. -/
theorem spawn_blocking_amended_witness :
    (Event.execAwait "ccr version").isBackgroundSpawn = false :=
  (spawn_blocking_amended fun _ => .ok ⟨"1.0.0"⟩).1
    (Event.execAwait "ccr version") (by decide)

/-- Claim C9: `installCcr` treats a package-manager failure whose error
message contains "EEXIST" as already-installed success (it returns
normally, without throwing), re-throws every other install failure to the
caller, and when the tool is already installed returns without attempting
the install invocation at all. -/
theorem installCcr_eexist_handling (env : ExecEnv) :
    ((isCcrInstalled env).1 = .ok true →
      (installCcr env).1 = .ok () ∧
        ∀ e ∈ (installCcr env).2, e ≠ Event.execAwait npmInstallCmd) ∧
    ((isCcrInstalled env).1 = .ok false →
      ∀ err, env npmInstallCmd = .error err →
        (strIncludes err.message "EEXIST" = true →
          (installCcr env).1 = .ok ()) ∧
        (strIncludes err.message "EEXIST" = false →
          (installCcr env).1 = .error err)) := by
  constructor
  · intro hins
    cases h1 : env "ccr version" with
    | ok o =>
      constructor
      · simp [installCcr, isCcrInstalled, h1]
      · simp only [installCcr, isCcrInstalled, h1]
        intro e he
        simp [npmInstallCmd] at he ⊢
        rcases he with he | he <;> simp [he]
    | error e1 =>
      cases h2 : env "which ccr" with
      | ok o2 =>
        constructor
        · simp [installCcr, isCcrInstalled, h1, h2]
        · simp only [installCcr, isCcrInstalled, h1, h2]
          intro e he
          simp [npmInstallCmd] at he ⊢
          rcases he with he | he | he <;> simp [he]
      | error e2 =>
        rw [isCcrInstalled, h1, h2] at hins
        simp at hins
  · intro hins err herr
    cases h1 : env "ccr version" with
    | ok o =>
      rw [isCcrInstalled, h1] at hins
      simp at hins
    | error e1 =>
      cases h2 : env "which ccr" with
      | ok o2 =>
        rw [isCcrInstalled, h1, h2] at hins
        simp at hins
      | error e2 =>
        constructor <;> intro hin <;>
          simp [installCcr, isCcrInstalled, h1, h2, herr, hin]

/-- Witness for C9: the already-installed case and the EEXIST case at
concrete environments. -/
theorem installCcr_eexist_handling_witness :
    (installCcr fun _ => .ok ⟨"1.0.0"⟩).1 = .ok () ∧
      (installCcr fun cmd =>
        if cmd = npmInstallCmd then
          .error ⟨"npm ERR! EEXIST: file already exists"⟩
        else .error ⟨"ENOENT"⟩).1 = .ok () :=
  ⟨((installCcr_eexist_handling fun _ => .ok ⟨"1.0.0"⟩).1 rfl).1,
   ((installCcr_eexist_handling fun cmd =>
      if cmd = npmInstallCmd then
        .error ⟨"npm ERR! EEXIST: file already exists"⟩
      else .error ⟨"ENOENT"⟩).2 rfl
      ⟨"npm ERR! EEXIST: file already exists"⟩ rfl).1 (by decide)⟩

/-- Claim C6: when no ZcfConfig record exists, or the record has no
AI-personality field, the configuration is treated as unconfigured with
defaults: `hasExistingPersonality` returns `false`,
`getExistingPersonality` returns `null` (`none`), and the personality
prompt defaults to the first (default) choice (index 0) rather than
failing. -/
theorem personality_defaults_when_unconfigured :
    (hasExistingPersonality none = false ∧
      getExistingPersonality none = none ∧
      personalityDefaultIndex none = 0) ∧
    ∀ c : ZcfConfig, c.aiPersonality = none →
      hasExistingPersonality (some c) = false ∧
      getExistingPersonality (some c) = none ∧
      personalityDefaultIndex (some c) = 0 := by
  refine ⟨⟨rfl, rfl, rfl⟩, ?_⟩
  intro c hc
  simp [hasExistingPersonality, getExistingPersonality,
    personalityDefaultIndex, readAiPersonality, hc]

/-- Witness for C6 at a concrete record with the field absent. -/
theorem personality_defaults_when_unconfigured_witness :
    hasExistingPersonality (some {}) = false ∧
      getExistingPersonality (some {}) = none ∧
      personalityDefaultIndex (some {}) = 0 :=
  personality_defaults_when_unconfigured.2 {} rfl

/-- Claim C7: the custom AI-personality free-text answer is validated
only for non-emptiness — the validator accepts a string exactly when it
is non-empty. -/
theorem custom_directive_validation (value : String) :
    customDirectiveValidate value = .accept ↔ value ≠ "" := by
  unfold customDirectiveValidate strTruthy
  by_cases h : value = "" <;> simp [h]

/-- Witness for C7 at a concrete non-empty answer. -/
theorem custom_directive_validation_witness :
    customDirectiveValidate "Be concise" = .accept :=
  (custom_directive_validation "Be concise").mpr (by decide)

/-- Claim C8: a default invocation without the `--init` flag opens the
interactive menu (and does not run initialization); with `--init` it runs
full initialization instead of the menu. -/
theorem default_command_dispatch (lang : Option String) (options : CliOptions) :
    (options.doInit = false → handleDefaultCommand lang options = .showMenu) ∧
    (options.doInit = true →
      handleDefaultCommand lang options =
        .runInit (jsOrString lang options.lang) options.configLang
          options.force) := by
  constructor <;> intro h <;> simp [handleDefaultCommand, h]

/-- Witness for C8 at the no-argument and `--init` invocations. -/
theorem default_command_dispatch_witness :
    handleDefaultCommand none {} = .showMenu ∧
      handleDefaultCommand none { doInit := true } = .runInit none none false :=
  ⟨(default_command_dispatch none {}).1 rfl,
   (default_command_dispatch none { doInit := true }).2 rfl⟩

/-- Claim C10: when writing `personality.md` fails, the error is caught
and only logged, yet the chosen personality identifier is still saved to
the ZcfConfig record and success is reported — so the persisted record
can name a personality whose directive was never written to disk (no
atomicity on error). -/
theorem personality_write_failure_not_atomic (writeEnv : WriteEnv)
    (cfg : Option ZcfConfig) (personality directive : String)
    (err : ExecError)
    (h : writeEnv personalityFilePath directive = .error err) :
    (configureAiPersonalityFinish writeEnv cfg personality
        directive).1.aiPersonality = some personality ∧
    (configureAiPersonalityFinish writeEnv cfg personality directive).2.1
        = [] ∧
    (configureAiPersonalityFinish writeEnv cfg personality directive).2.2 =
      [.printError "failedToApplyPersonality",
       .print "personalityConfigured"] := by
  cases cfg <;>
    simp [configureAiPersonalityFinish, applyPersonalityDirective,
      updateZcfConfig, h]

/-- Witness for C10 at a concrete failing write environment. -/
theorem personality_write_failure_not_atomic_witness :
    (configureAiPersonalityFinish (fun _ _ => .error ⟨"EACCES"⟩) none
        "catgirl" "You are a cute catgirl programming assistant nya~"
        ).1.aiPersonality = some "catgirl" ∧
      (configureAiPersonalityFinish (fun _ _ => .error ⟨"EACCES"⟩) none
        "catgirl" "You are a cute catgirl programming assistant nya~"
        ).2.1 = [] ∧
      (configureAiPersonalityFinish (fun _ _ => .error ⟨"EACCES"⟩) none
        "catgirl" "You are a cute catgirl programming assistant nya~"
        ).2.2 =
        [.printError "failedToApplyPersonality",
         .print "personalityConfigured"] :=
  personality_write_failure_not_atomic (fun _ _ => .error ⟨"EACCES"⟩) none
    "catgirl" "You are a cute catgirl programming assistant nya~"
    ⟨"EACCES"⟩ rfl

/-- Claim C4 counterexample: with no preserved fields and the key "a"
present in both target and template with object values, the merge result
at "a" is the recursive merge of the two objects, not the template's
value — refuting "every other key present in both target and template
takes the template's value". -/
theorem merge_nested_object_counterexample :
    lookupKey (mergeObjects [] [("a", Json.obj [("x", Json.num 1)])]
        [("a", Json.obj [("y", Json.num 2)])]) "a" =
      some (Json.obj [("x", Json.num 1), ("y", Json.num 2)]) ∧
    lookupKey [("a", Json.obj [("y", Json.num 2)])] "a" =
      some (Json.obj [("y", Json.num 2)]) ∧
    Json.obj [("x", Json.num 1), ("y", Json.num 2)] ≠
      Json.obj [("y", Json.num 2)] := by
  refine ⟨rfl, rfl, ?_⟩
  intro h
  have hlen := congrArg
    (fun j => match j with | Json.obj l => l.length | _ => 0) h
  simp at hlen

/-- Claim C4 (amended): under the `merge` strategy, every field tagged
preserve-user-value for which the user has an existing value keeps that
value; every other key present in both target and template takes the
template's value, except that a key whose value is a JSON object on both
sides is deep-merged recursively (arrays and scalars are replaced
wholesale by the template's value); the spec's example merge yields
exactly the stated result. -/
theorem merge_preserve_amended (preserve : List String)
    (target tpl : List (String × Json)) (k : String) :
    (∀ v, k ∈ preserve → lookupKey target k = some v →
      lookupKey (mergeObjects preserve target tpl) k = some v) ∧
    (∀ uv tv, k ∉ preserve → lookupKey target k = some uv →
      lookupKey tpl k = some tv →
      lookupKey (mergeObjects preserve target tpl) k =
        some (mergeValue preserve uv tv)) ∧
    (∀ uv tv, ((∀ a, uv ≠ Json.obj a) ∨ ∀ b, tv ≠ Json.obj b) →
      mergeValue preserve uv tv = tv) ∧
    mergeObjects ["apiKey", "model"]
      [("apiType", Json.str "api_key"), ("apiKey", Json.str "abc"),
       ("model", Json.str "default")]
      [("apiType", Json.str "auth_token"), ("model", Json.str "opus"),
       ("newField", Json.bool true)] =
      [("apiType", Json.str "auth_token"), ("apiKey", Json.str "abc"),
       ("model", Json.str "default"), ("newField", Json.bool true)] := by
  refine ⟨?_, ?_, ?_, rfl⟩
  · intro v hp hv
    apply lookupKey_append_left
    rw [lookupKey_mergeInto, hv]
    cases htpl : lookupKey tpl k <;> simp [hp]
  · intro uv tv hp huv htv
    apply lookupKey_append_left
    rw [lookupKey_mergeInto, huv, htv]
    simp [hp]
  · intro uv tv hor
    cases uv <;> cases tv <;> try rfl
    rcases hor with hor | hor
    · exact absurd rfl (hor _)
    · exact absurd rfl (hor _)

/-- Witness for C4 (amended): the preserved field `apiKey`, the adopted
scalar field `apiType`, and the wholesale replacement rule, at the spec's
example. -/
theorem merge_preserve_amended_witness :
    lookupKey (mergeObjects ["apiKey", "model"]
      [("apiType", Json.str "api_key"), ("apiKey", Json.str "abc"),
       ("model", Json.str "default")]
      [("apiType", Json.str "auth_token"), ("model", Json.str "opus"),
       ("newField", Json.bool true)]) "apiKey" = some (Json.str "abc") ∧
      mergeValue ["apiKey", "model"] (Json.str "api_key")
        (Json.str "auth_token") = Json.str "auth_token" :=
  ⟨(merge_preserve_amended ["apiKey", "model"]
      [("apiType", Json.str "api_key"), ("apiKey", Json.str "abc"),
       ("model", Json.str "default")]
      [("apiType", Json.str "auth_token"), ("model", Json.str "opus"),
       ("newField", Json.bool true)] "apiKey").1 (Json.str "abc")
      (by decide) rfl,
   (merge_preserve_amended ["apiKey", "model"] [] [] "apiKey").2.2.1
      (Json.str "api_key") (Json.str "auth_token")
      (Or.inl fun a h => by cases h)⟩

end Zcf
